import Mathlib

/-
Shallow embedding of the spaceswimmer/FWI-DL utility scripts, chiefly
src/scripts/gk4214-to-kml.py (coordinate-to-outline-to-KML pipeline) and
src/util/filehandler.py (folder scan of saved numpy arrays).

Modelling choices:
* Python floats are idealized as exact rationals (ℚ).
* Calls into third-party libraries are oracle parameters:
  scipy.spatial.ConvexHull is an oracle returning the hull vertex indices or
  none for a raised error; pyproj's Transformer.from_crs and per-point
  transform are oracles that may fail; Python float() parsing of a token and
  numpy.load of a file are oracles returning none on the exceptions the
  source catches.
* numpy.round(points / tolerance) * tolerance is represented by the integer
  multiplier of the tolerance grid (round-half-even, as numpy rounds): for a
  positive tolerance, equality and lexicographic order of the rounded rows
  agree with equality and lexicographic order of these integer key pairs,
  which is all numpy.unique(axis=0, return_index=True) observes.
* Python text lines are lists of characters; str.strip / str.split() /
  str.startswith are given list-level definitions with the same meaning.
-/

/-- A 2-D coordinate pair, as read from the input text file. -/
structure Point where
  x : ℚ
  y : ℚ
  deriving DecidableEq

/-- A reprojected coordinate with the altitude component the script appends. -/
abbrev Point3 := ℚ × ℚ × ℚ

deriving instance DecidableEq for Except

/-- Round-half-even (the rounding numpy.round uses) of the fraction a / b;
    returns 0 for the degenerate b = 0. -/
def roundHalfEven (a b : ℤ) : ℤ :=
  let a' := if b < 0 then -a else a
  let b' := if b < 0 then -b else b
  if b' = 0 then 0
  else
    let f := a'.ediv b'
    let r := a'.emod b'
    if 2 * r < b' then f
    else if b' < 2 * r then f + 1
    else if f % 2 = 0 then f else f + 1

/-- The integer key pair of numpy.round(point / tolerance): the coordinates of
    the rounded point in units of the tolerance. The source keeps the rounded
    values round(c/t)*t themselves; multiplying the key by a fixed positive t
    is injective and monotone, so grouping and sorting by the key agrees with
    grouping and sorting by the rounded value. -/
def roundKey (tolerance : ℚ) (p : Point) : ℤ × ℤ :=
  (roundHalfEven (p.x.num * tolerance.den) (p.x.den * tolerance.num),
   roundHalfEven (p.y.num * tolerance.den) (p.y.den * tolerance.num))

/-- Worker for uniqueVals: keeps the values not seen before, threading the
    set of already-seen values. -/
def uniqueValsAux (seen : List (ℤ × ℤ)) : List (ℤ × ℤ) → List (ℤ × ℤ)
  | [] => []
  | v :: vs =>
    if v ∈ seen then uniqueValsAux seen vs
    else v :: uniqueValsAux (v :: seen) vs

/-- The distinct values of a list in order of first occurrence
    (the set of unique rows numpy.unique computes). -/
def uniqueVals (l : List (ℤ × ℤ)) : List (ℤ × ℤ) :=
  uniqueValsAux [] l

/-- Index of the first occurrence of v in l
    (numpy.unique with return_index=True reports first-occurrence indices). -/
def firstIdx : List (ℤ × ℤ) → (ℤ × ℤ) → ℕ
  | [], _ => 0
  | w :: ws, v => if w = v then 0 else firstIdx ws v + 1

/-- Lexicographic order on round keys: the row order numpy.unique(axis=0)
    sorts the unique rounded rows by (for a positive tolerance). -/
def keyLE : (ℤ × ℤ) → (ℤ × ℤ) → Prop := fun a b => a.1 < b.1 ∨ (a.1 = b.1 ∧ a.2 ≤ b.2)

instance : DecidableRel keyLE := fun a b => by unfold keyLE; infer_instance

/-- remove_duplicate_points(points, tolerance=0.01) of gk4214-to-kml.py:
    rounds every point to the tolerance grid, and via
    numpy.unique(rounded, axis=0, return_index=True) keeps, for each distinct
    rounded value in sorted order, the original point at its first index. -/
def remove_duplicate_points (points : List Point) (tolerance : ℚ) : List Point :=
  if points.length = 0 then points
  else
    let keys := points.map (roundKey tolerance)
    let sortedVals := List.insertionSort keyLE (uniqueVals keys)
    sortedVals.map (fun v => points.getD (firstIdx keys v) ⟨0, 0⟩)

/-- The default tolerance 0.01 of remove_duplicate_points; every call in the
    script uses the default. -/
def default_tolerance : ℚ := mkRat 1 100

/-- Column-wise minimum of the x coordinates (np.min(points, axis=0), first
    column); 0 on the empty list, where numpy would raise instead — the
    script only calls this with at least 3 points. -/
def minX : List Point → ℚ
  | [] => 0
  | p :: ps => ps.foldl (fun a q => min a q.x) p.x

/-- Column-wise maximum of the x coordinates (np.max(points, axis=0)). -/
def maxX : List Point → ℚ
  | [] => 0
  | p :: ps => ps.foldl (fun a q => max a q.x) p.x

/-- Column-wise minimum of the y coordinates. -/
def minY : List Point → ℚ
  | [] => 0
  | p :: ps => ps.foldl (fun a q => min a q.y) p.y

/-- Column-wise maximum of the y coordinates. -/
def maxY : List Point → ℚ
  | [] => 0
  | p :: ps => ps.foldl (fun a q => max a q.y) p.y

/-- create_bounding_box of gk4214-to-kml.py: the four corners
    (min_x,min_y), (max_x,min_y), (max_x,max_y), (min_x,max_y). -/
def create_bounding_box (points : List Point) : List Point :=
  [⟨minX points, minY points⟩, ⟨maxX points, minY points⟩,
   ⟨maxX points, maxY points⟩, ⟨minX points, maxY points⟩]

/-- A scipy ConvexHull call, as an oracle: some vs is a successful hull whose
    vertices attribute is the index list vs, none is a raised error. The
    source indexes points[hull.vertices] with the returned indices. -/
abbrev HullOracle := List Point → Option (List ℕ)

/-- create_outline_polygon of gk4214-to-kml.py. hull is the standard
    ConvexHull call, hull_opts the retry with qhull_options QbB QJ Qc; the
    bounding box is the second fallback. The ring is closed by appending the
    first outline point (np.vstack with outline_points[0]); an empty outline
    would make that indexing raise, modelled as an error. -/
def create_outline_polygon (hull hull_opts : HullOracle) (points : List Point) :
    Except String (List Point) :=
  if points.length < 3 then
    .error ("Need at least 3 points to create a polygon")
  else
    let pts := remove_duplicate_points points default_tolerance
    if pts.length < 3 then
      .error ("Need at least 3 unique points to create a polygon")
    else
      let outline :=
        match hull pts with
        | some vs => vs.map (fun i => pts.getD i ⟨0, 0⟩)
        | none =>
          match hull_opts pts with
          | some vs => vs.map (fun i => pts.getD i ⟨0, 0⟩)
          | none => create_bounding_box pts
      match outline with
      | [] => .error ("list index out of range")
      | o :: rest => .ok ((o :: rest) ++ [o])

/-- A pyproj transformer, as an oracle on single points: none is a raised
    per-point transform error (caught and warned by the source). -/
abbrev TransformerFn := Point → Option (ℚ × ℚ)

/-- The per-point loop of convert_coordinates: a point whose transform raises
    is dropped (after a printed warning), a transformed point contributes
    [lon, lat, 0]. -/
def convert_points_loop (transformer : TransformerFn) : List Point → List Point3
  | [] => []
  | p :: ps =>
    match transformer p with
    | some q => (q.1, q.2, 0) :: convert_points_loop transformer ps
    | none => convert_points_loop transformer ps

/-- convert_coordinates of gk4214-to-kml.py. from_crs is the oracle for
    Transformer.from_crs(source_crs, target_crs); its failure is re-raised as
    a ValueError that aborts the conversion. -/
def convert_coordinates (from_crs : String → String → Option TransformerFn)
    (points : List Point) (source_crs target_crs : String) :
    Except String (List Point3) :=
  match from_crs source_crs target_crs with
  | none =>
    .error (("Could not initialize coordinate transformer from ") ++ source_crs
      ++ (" to ") ++ target_crs)
  | some transformer => .ok (convert_points_loop transformer points)

/-- Python str.strip(): drop whitespace from both ends of the line. -/
def strip (l : List Char) : List Char :=
  ((l.dropWhile Char.isWhitespace).reverse.dropWhile Char.isWhitespace).reverse

/-- Python str.split() with no argument: split on whitespace runs, no empty
    tokens. -/
def pySplit (l : List Char) : List (List Char) :=
  (l.splitOnP Char.isWhitespace).filter (fun t => t ≠ [])

/-- read_coordinates of gk4214-to-kml.py over the lines of the file, with
    parse_float the oracle for Python float(token) (none = ValueError, which
    the source catches and skips the line). A stripped line is processed only
    if nonempty and not starting with the comment character; it contributes a
    point only if it has at least two tokens and both parse. -/
def read_coordinates (parse_float : List Char → Option ℚ) :
    List (List Char) → List Point
  | [] => []
  | line :: rest =>
    let l := strip line
    if l ≠ [] ∧ l.head? ≠ some '#' then
      let parts := pySplit l
      if 2 ≤ parts.length then
        match parse_float (parts.getD 0 []), parse_float (parts.getD 1 []) with
        | some xv, some yv => ⟨xv, yv⟩ :: read_coordinates parse_float rest
        | _, _ => read_coordinates parse_float rest
      else read_coordinates parse_float rest
    else read_coordinates parse_float rest

/-- Written from the spec's words for the coordinate reader: blank lines and
    lines starting with the comment character are skipped, as are lines that
    do not parse as two leading floats; a well-formed line yields its (x, y)
    pair. Used to compare the source-level reader against the spec. -/
def spec_well_formed_pair (parse_float : List Char → Option ℚ)
    (line : List Char) : Option Point :=
  let l := strip line
  if l = [] then none
  else if l.head? = some '#' then none
  else
    match pySplit l with
    | t1 :: t2 :: _ =>
      match parse_float t1, parse_float t2 with
      | some xv, some yv => some ⟨xv, yv⟩
      | _, _ => none
    | _ => none

/-- Python f.endswith of the .npy extension on a filename. -/
def ends_with_npy (f : String) : Bool :=
  (".npy").data.isSuffixOf f.data

/-- The per-file loop of find_viable_arrays: a file whose load raises is
    reported and skipped (the scan continues); a loaded array is kept exactly
    when it has more than one distinct value. (An empty array also raises in
    the source, at unique_values[0] in the report branch, and is likewise
    caught and skipped; here it simply fails the > 1 test.) -/
def find_viable_arrays_loop (load : String → Option (List ℚ)) :
    List String → List String
  | [] => []
  | f :: fs =>
    match load f with
    | none => find_viable_arrays_loop load fs
    | some arr =>
      if 1 < arr.toFinset.card then f :: find_viable_arrays_loop load fs
      else find_viable_arrays_loop load fs

/-- find_viable_arrays of util/filehandler.py over a folder listing, with
    load the oracle for numpy.load. Only .npy files are visited. (The source
    appends the bare filename — the parenthesised (filename) is not a tuple —
    so the result is a list of names.) -/
def find_viable_arrays (load : String → Option (List ℚ))
    (folder_listing : List String) : List String :=
  find_viable_arrays_loop load (folder_listing.filter ends_with_npy)

/-- Python str.lower() (ASCII). -/
def str_lower (s : String) : String :=
  ⟨s.data.map Char.toLower⟩

/-- Python format(zone, "02d"): decimal, zero-padded to width 2. -/
def zone_fmt (z : ℤ) : String :=
  let s := toString z
  if s.length < 2 then ("0") ++ s else s

/-- get_crs_from_args of gk4214-to-kml.py. utm_zone is Optional[int]; the
    source tests its Python truthiness, so a zone of 0 (like None) falls
    through to the Gauss-Krüger default EPSG:31468. -/
def get_crs_from_args (no_conversion : Bool) (utm_zone : Option ℤ)
    (utm_hemisphere : String) : Option String :=
  if no_conversion then none
  else
    match utm_zone with
    | some z =>
      if z ≠ 0 then
        if str_lower utm_hemisphere = ("s") then
          some (("EPSG:327") ++ zone_fmt z)
        else
          some (("EPSG:326") ++ zone_fmt z)
      else some ("EPSG:31468")
    | none => some ("EPSG:31468")

/-- The polygon overlay simplekml is asked to write: name, outer boundary
    coordinates, the fixed style, the description text, and the file it is
    saved to. -/
structure KmlPolygon where
  name : String
  outerboundaryis : List Point3
  polystyle_color : String
  linestyle_color : String
  linestyle_width : ℕ
  description : String
  saved_to : String
  deriving DecidableEq

/-- create_kml_file of gk4214-to-kml.py. Both branches of the is_latlon test
    build the same (point[0], point[1], point[2]) coordinate list; the flag
    only selects the CRS text of the description. -/
def create_kml_file (points : List Point3) (output_filename : String)
    (original_points_count : ℕ) (is_latlon : Bool) : KmlPolygon :=
  let polygon_name := ("Points Outline (") ++ toString original_points_count
    ++ (" points)")
  let coords :=
    if is_latlon then points.map (fun p => (p.1, p.2.1, p.2.2))
    else points.map (fun p => (p.1, p.2.1, p.2.2))
  let crs_info :=
    if is_latlon then ("WGS84 (lat/lon)") else ("Original Projected CRS")
  { name := polygon_name
    outerboundaryis := coords
    polystyle_color := ("blue, alpha 100")
    linestyle_color := ("red")
    linestyle_width := 3
    description := ("Outline polygon created from ")
      ++ toString original_points_count ++ (" input points\nCRS: ") ++ crs_info
      ++ ("\nTotal outline points: ") ++ toString points.length
    saved_to := output_filename }

/-- Hull oracle that always raises (both ConvexHull calls fail). -/
def hullNone : HullOracle := fun _ => none

/-- Hull oracle that succeeds with vertex indices 0, 1, 2. -/
def hullTri : HullOracle := fun _ => some [0, 1, 2]

/-- A numpy.load oracle for concrete scans: loading bad.npy raises, every
    other file holds a two-valued array. -/
def sample_load : String → Option (List ℚ) :=
  fun s => if s = ("bad.npy") then none else some [0, 1]

/-- A Transformer.from_crs oracle for concrete runs: construction succeeds
    for the GK source CRS and gives a transformer that raises on points with
    x = 0 and translates the rest. -/
def sample_from_crs : String → String → Option TransformerFn :=
  fun s _ =>
    if s = ("EPSG:31468") then
      some (fun p => if p.x = 0 then none else some (p.x, p.y))
    else none

/-- A Transformer.from_crs oracle whose construction always raises. -/
def from_crs_fail : String → String → Option TransformerFn := fun _ _ => none

theorem uniqueValsAux_subset : ∀ (l seen : List (ℤ × ℤ)) (v : ℤ × ℤ),
    v ∈ uniqueValsAux seen l → v ∈ l := by
  intro l
  induction l with
  | nil => intro seen v h; simp [uniqueValsAux] at h
  | cons w ws ih =>
    intro seen v h
    simp only [uniqueValsAux] at h
    by_cases hw : w ∈ seen
    · rw [if_pos hw] at h
      exact List.mem_cons_of_mem _ (ih seen v h)
    · rw [if_neg hw] at h
      rcases List.mem_cons.mp h with rfl | h
      · exact List.mem_cons_self _ _
      · exact List.mem_cons_of_mem _ (ih _ v h)

theorem uniqueVals_subset : ∀ (l : List (ℤ × ℤ)) (v : ℤ × ℤ), v ∈ uniqueVals l → v ∈ l :=
  fun l v => uniqueValsAux_subset l [] v

theorem uniqueValsAux_disjoint_nodup : ∀ (l seen : List (ℤ × ℤ)),
    (∀ v ∈ uniqueValsAux seen l, v ∉ seen) ∧ (uniqueValsAux seen l).Nodup := by
  intro l
  induction l with
  | nil => intro seen; simp [uniqueValsAux]
  | cons w ws ih =>
    intro seen
    simp only [uniqueValsAux]
    by_cases hw : w ∈ seen
    · rw [if_pos hw]
      exact ih seen
    · rw [if_neg hw]
      constructor
      · intro v hv
        rcases List.mem_cons.mp hv with rfl | hv
        · exact hw
        · intro hseen
          exact (ih (w :: seen)).1 v hv (List.mem_cons_of_mem _ hseen)
      · rw [List.nodup_cons]
        refine ⟨fun hmem => ?_, (ih (w :: seen)).2⟩
        exact (ih (w :: seen)).1 w hmem (List.mem_cons_self _ _)

theorem uniqueVals_nodup : ∀ (l : List (ℤ × ℤ)), (uniqueVals l).Nodup :=
  fun l => (uniqueValsAux_disjoint_nodup l []).2

theorem uniqueValsAux_length_le : ∀ (l seen : List (ℤ × ℤ)),
    (uniqueValsAux seen l).length ≤ l.length := by
  intro l
  induction l with
  | nil => intro seen; simp [uniqueValsAux]
  | cons w ws ih =>
    intro seen
    simp only [uniqueValsAux]
    by_cases hw : w ∈ seen
    · rw [if_pos hw]
      exact le_trans (ih seen) (Nat.le_succ _)
    · rw [if_neg hw]
      simp only [List.length_cons]
      exact Nat.succ_le_succ (ih (w :: seen))

theorem uniqueVals_length_le : ∀ (l : List (ℤ × ℤ)), (uniqueVals l).length ≤ l.length :=
  fun l => uniqueValsAux_length_le l []

theorem uniqueValsAux_eq_self : ∀ (l seen : List (ℤ × ℤ)), l.Nodup →
    (∀ v ∈ l, v ∉ seen) → uniqueValsAux seen l = l := by
  intro l
  induction l with
  | nil => intro seen _ _; rfl
  | cons w ws ih =>
    intro seen hnd hdis
    rcases List.nodup_cons.mp hnd with ⟨hw, hws⟩
    simp only [uniqueValsAux, if_neg (hdis w (List.mem_cons_self _ _))]
    congr 1
    refine ih (w :: seen) hws ?_
    intro v hv hmem
    rcases List.mem_cons.mp hmem with rfl | hmem
    · exact hw hv
    · exact hdis v (List.mem_cons_of_mem _ hv) hmem

theorem uniqueVals_of_nodup : ∀ (l : List (ℤ × ℤ)), l.Nodup → uniqueVals l = l :=
  fun l h => uniqueValsAux_eq_self l [] h (by simp)

theorem firstIdx_lt_length : ∀ (l : List (ℤ × ℤ)) (v : ℤ × ℤ), v ∈ l → firstIdx l v < l.length := by
  intro l
  induction l with
  | nil => intro v h; cases h
  | cons w ws ih =>
    intro v hv
    by_cases h : w = v
    · simp [firstIdx, h]
    · have hmem : v ∈ ws := by
        rcases List.mem_cons.mp hv with rfl | hm
        · exact absurd rfl h
        · exact hm
      simp only [firstIdx, if_neg h, List.length_cons]
      exact Nat.succ_lt_succ (ih v hmem)

theorem getD_firstIdx : ∀ (l : List (ℤ × ℤ)) (v : ℤ × ℤ) (d : ℤ × ℤ),
    v ∈ l → l.getD (firstIdx l v) d = v := by
  intro l
  induction l with
  | nil => intro v d h; cases h
  | cons w ws ih =>
    intro v d hv
    by_cases h : w = v
    · simp [firstIdx, h]
    · have hmem : v ∈ ws := by
        rcases List.mem_cons.mp hv with rfl | hm
        · exact absurd rfl h
        · exact hm
      simp only [firstIdx, if_neg h, List.getD_cons_succ]
      exact ih v d hmem

theorem firstIdx_getElem : ∀ (l : List (ℤ × ℤ)), l.Nodup →
    ∀ (i : ℕ) (hi : i < l.length), firstIdx l l[i] = i := by
  intro l
  induction l with
  | nil => intro _ i hi; cases hi
  | cons w ws ih =>
    intro h i hi
    rcases List.nodup_cons.mp h with ⟨hw, hws⟩
    cases i with
    | zero => simp [firstIdx]
    | succ j =>
      have hj : j < ws.length := Nat.lt_of_succ_lt_succ hi
      have hne : w ≠ ws[j] := by
        intro hEq
        exact hw (hEq ▸ List.getElem_mem hj)
      simp only [List.getElem_cons_succ, firstIdx, if_neg hne]
      rw [ih hws j hj]

theorem dedup_nil (tolerance : ℚ) : remove_duplicate_points [] tolerance = [] := rfl

theorem dedup_eq_of_ne_nil (points : List Point) (tolerance : ℚ) (h : points ≠ []) :
    remove_duplicate_points points tolerance =
      (List.insertionSort keyLE (uniqueVals (points.map (roundKey tolerance)))).map
        (fun v => points.getD (firstIdx (points.map (roundKey tolerance)) v) ⟨0, 0⟩) := by
  unfold remove_duplicate_points
  rw [if_neg]
  simpa using h

theorem dedup_length_le (points : List Point) (tolerance : ℚ) :
    (remove_duplicate_points points tolerance).length ≤ points.length := by
  by_cases h : points = []
  · subst h; simp [dedup_nil]
  · rw [dedup_eq_of_ne_nil _ _ h, List.length_map]
    calc (List.insertionSort keyLE (uniqueVals (points.map (roundKey tolerance)))).length
        = (uniqueVals (points.map (roundKey tolerance))).length :=
          (List.perm_insertionSort _ _).length_eq
      _ ≤ (points.map (roundKey tolerance)).length := uniqueVals_length_le _
      _ = points.length := List.length_map _ _

theorem map_roundKey_dedup (points : List Point) (tolerance : ℚ) (h : points ≠ []) :
    (remove_duplicate_points points tolerance).map (roundKey tolerance) =
      List.insertionSort keyLE (uniqueVals (points.map (roundKey tolerance))) := by
  rw [dedup_eq_of_ne_nil _ _ h, List.map_map]
  have hpt : ∀ v ∈ List.insertionSort keyLE (uniqueVals (points.map (roundKey tolerance))),
      (roundKey tolerance ∘ fun v =>
        points.getD (firstIdx (points.map (roundKey tolerance)) v) ⟨0, 0⟩) v = v := by
    intro v hv
    have hv1 : v ∈ uniqueVals (points.map (roundKey tolerance)) :=
      (List.perm_insertionSort _ _).mem_iff.mp hv
    have hv2 : v ∈ points.map (roundKey tolerance) := uniqueVals_subset _ _ hv1
    have hlt : firstIdx (points.map (roundKey tolerance)) v <
        (points.map (roundKey tolerance)).length := firstIdx_lt_length _ _ hv2
    have hltp : firstIdx (points.map (roundKey tolerance)) v < points.length := by
      simpa using hlt
    simp only [Function.comp]
    rw [List.getD_eq_getElem _ _ hltp]
    have hkey := getD_firstIdx (points.map (roundKey tolerance)) v (0, 0) hv2
    rw [List.getD_eq_getElem _ _ hlt, List.getElem_map] at hkey
    exact hkey
  rw [List.map_congr_left hpt]
  simp

theorem dedup_nodup (points : List Point) (tolerance : ℚ) :
    (remove_duplicate_points points tolerance).Nodup := by
  by_cases h : points = []
  · subst h; simp [dedup_nil]
  · have hmap := map_roundKey_dedup points tolerance h
    have hnd : (List.insertionSort keyLE (uniqueVals (points.map (roundKey tolerance)))).Nodup :=
      (List.perm_insertionSort _ _).nodup_iff.mpr (uniqueVals_nodup _)
    exact List.Nodup.of_map _ (hmap ▸ hnd)

theorem dedup_subset (points : List Point) (tolerance : ℚ) :
    ∀ q ∈ remove_duplicate_points points tolerance, q ∈ points := by
  by_cases h : points = []
  · subst h; simp [dedup_nil]
  · rw [dedup_eq_of_ne_nil _ _ h]
    intro q hq
    rcases List.mem_map.mp hq with ⟨v, hv, rfl⟩
    have hv2 : v ∈ points.map (roundKey tolerance) :=
      uniqueVals_subset _ _ ((List.perm_insertionSort _ _).mem_iff.mp hv)
    have hlt : firstIdx (points.map (roundKey tolerance)) v < points.length := by
      have := firstIdx_lt_length _ _ hv2
      simpa using this
    rw [List.getD_eq_getElem _ _ hlt]
    exact List.getElem_mem _

theorem dedup_perm_of_nodup_keys (points : List Point) (tolerance : ℚ)
    (h : (points.map (roundKey tolerance)).Nodup) :
    (remove_duplicate_points points tolerance).Perm points := by
  by_cases hn : points = []
  · subst hn; simp [dedup_nil]
  · rw [dedup_eq_of_ne_nil _ _ hn, uniqueVals_of_nodup _ h]
    have hmapped : (points.map (roundKey tolerance)).map
        (fun v => points.getD (firstIdx (points.map (roundKey tolerance)) v) ⟨0, 0⟩)
        = points := by
      apply List.ext_getElem
      · simp
      · intro i h1 h2
        have hk : i < (points.map (roundKey tolerance)).length := by simpa using h2
        rw [List.getElem_map]
        have hfix := firstIdx_getElem (points.map (roundKey tolerance)) h i hk
        rw [hfix]
        exact List.getD_eq_getElem _ _ h2
    have hp : ((List.insertionSort keyLE (points.map (roundKey tolerance))).map
        (fun v => points.getD (firstIdx (points.map (roundKey tolerance)) v) ⟨0, 0⟩)).Perm
        ((points.map (roundKey tolerance)).map
        (fun v => points.getD (firstIdx (points.map (roundKey tolerance)) v) ⟨0, 0⟩)) :=
      (List.perm_insertionSort _ _).map _
    rw [hmapped] at hp
    exact hp

theorem dedup_keys_nodup (points : List Point) (tolerance : ℚ) (h : points ≠ []) :
    ((remove_duplicate_points points tolerance).map (roundKey tolerance)).Nodup := by
  rw [map_roundKey_dedup _ _ h]
  exact (List.perm_insertionSort _ _).nodup_iff.mpr (uniqueVals_nodup _)

/-- Claim C5: remove_duplicate_points is idempotent — applying it to its own
    output yields the same set of points as the single application. -/
theorem remove_duplicate_points_idempotent (points : List Point) (tolerance : ℚ) :
    (remove_duplicate_points (remove_duplicate_points points tolerance) tolerance).toFinset
      = (remove_duplicate_points points tolerance).toFinset := by
  by_cases h : points = []
  · subst h; simp [dedup_nil]
  · exact List.toFinset_eq_of_perm _ _
      (dedup_perm_of_nodup_keys _ _ (dedup_keys_nodup points tolerance h))

/-- Claim C6: the output of remove_duplicate_points is never longer than its
    input. -/
theorem remove_duplicate_points_length_le (points : List Point) (tolerance : ℚ) :
    (remove_duplicate_points points tolerance).length ≤ points.length :=
  dedup_length_le points tolerance

theorem foldl_min_spec (f : Point → ℚ) (l : List Point) : ∀ a : ℚ,
    (l.foldl (fun b q => min b (f q)) a ≤ a ∧
      ∀ q ∈ l, l.foldl (fun b q => min b (f q)) a ≤ f q) ∧
    (l.foldl (fun b q => min b (f q)) a = a ∨
      ∃ q ∈ l, l.foldl (fun b q => min b (f q)) a = f q) := by
  induction l with
  | nil => intro a; simp
  | cons y ys ih =>
    intro a
    simp only [List.foldl_cons]
    constructor
    · constructor
      · exact le_trans ((ih (min a (f y))).1.1) (min_le_left _ _)
      · intro q hq
        rcases List.mem_cons.mp hq with rfl | hq
        · exact le_trans ((ih (min a (f q))).1.1) (min_le_right _ _)
        · exact (ih (min a (f y))).1.2 q hq
    · rcases (ih (min a (f y))).2 with hEq | ⟨q, hq, hEq⟩
      · rcases min_choice a (f y) with hc | hc
        · left; rw [hEq, hc]
        · right; exact ⟨y, List.mem_cons_self _ _, by rw [hEq, hc]⟩
      · right; exact ⟨q, List.mem_cons_of_mem _ hq, hEq⟩

theorem foldl_max_spec (f : Point → ℚ) (l : List Point) : ∀ a : ℚ,
    (a ≤ l.foldl (fun b q => max b (f q)) a ∧
      ∀ q ∈ l, f q ≤ l.foldl (fun b q => max b (f q)) a) ∧
    (l.foldl (fun b q => max b (f q)) a = a ∨
      ∃ q ∈ l, l.foldl (fun b q => max b (f q)) a = f q) := by
  induction l with
  | nil => intro a; simp
  | cons y ys ih =>
    intro a
    simp only [List.foldl_cons]
    constructor
    · constructor
      · exact le_trans (le_max_left _ _) ((ih (max a (f y))).1.1)
      · intro q hq
        rcases List.mem_cons.mp hq with rfl | hq
        · exact le_trans (le_max_right _ _) ((ih (max a (f q))).1.1)
        · exact (ih (max a (f y))).1.2 q hq
    · rcases (ih (max a (f y))).2 with hEq | ⟨q, hq, hEq⟩
      · rcases max_choice a (f y) with hc | hc
        · left; rw [hEq, hc]
        · right; exact ⟨y, List.mem_cons_self _ _, by rw [hEq, hc]⟩
      · right; exact ⟨q, List.mem_cons_of_mem _ hq, hEq⟩

theorem minX_le_mem (p : Point) (ps : List Point) : ∀ q ∈ p :: ps, minX (p :: ps) ≤ q.x := by
  intro q hq
  simp only [minX]
  rcases List.mem_cons.mp hq with rfl | hq
  · exact (foldl_min_spec Point.x ps q.x).1.1
  · exact (foldl_min_spec Point.x ps p.x).1.2 q hq

theorem minX_mem (p : Point) (ps : List Point) : ∃ q ∈ p :: ps, minX (p :: ps) = q.x := by
  simp only [minX]
  rcases (foldl_min_spec Point.x ps p.x).2 with hEq | ⟨q, hq, hEq⟩
  · exact ⟨p, List.mem_cons_self _ _, hEq⟩
  · exact ⟨q, List.mem_cons_of_mem _ hq, hEq⟩

theorem maxX_le_mem (p : Point) (ps : List Point) : ∀ q ∈ p :: ps, q.x ≤ maxX (p :: ps) := by
  intro q hq
  simp only [maxX]
  rcases List.mem_cons.mp hq with rfl | hq
  · exact (foldl_max_spec Point.x ps q.x).1.1
  · exact (foldl_max_spec Point.x ps p.x).1.2 q hq

theorem maxX_mem (p : Point) (ps : List Point) : ∃ q ∈ p :: ps, maxX (p :: ps) = q.x := by
  simp only [maxX]
  rcases (foldl_max_spec Point.x ps p.x).2 with hEq | ⟨q, hq, hEq⟩
  · exact ⟨p, List.mem_cons_self _ _, hEq⟩
  · exact ⟨q, List.mem_cons_of_mem _ hq, hEq⟩

theorem minY_le_mem (p : Point) (ps : List Point) : ∀ q ∈ p :: ps, minY (p :: ps) ≤ q.y := by
  intro q hq
  simp only [minY]
  rcases List.mem_cons.mp hq with rfl | hq
  · exact (foldl_min_spec Point.y ps q.y).1.1
  · exact (foldl_min_spec Point.y ps p.y).1.2 q hq

theorem minY_mem (p : Point) (ps : List Point) : ∃ q ∈ p :: ps, minY (p :: ps) = q.y := by
  simp only [minY]
  rcases (foldl_min_spec Point.y ps p.y).2 with hEq | ⟨q, hq, hEq⟩
  · exact ⟨p, List.mem_cons_self _ _, hEq⟩
  · exact ⟨q, List.mem_cons_of_mem _ hq, hEq⟩

theorem maxY_le_mem (p : Point) (ps : List Point) : ∀ q ∈ p :: ps, q.y ≤ maxY (p :: ps) := by
  intro q hq
  simp only [maxY]
  rcases List.mem_cons.mp hq with rfl | hq
  · exact (foldl_max_spec Point.y ps q.y).1.1
  · exact (foldl_max_spec Point.y ps p.y).1.2 q hq

theorem maxY_mem (p : Point) (ps : List Point) : ∃ q ∈ p :: ps, maxY (p :: ps) = q.y := by
  simp only [maxY]
  rcases (foldl_max_spec Point.y ps p.y).2 with hEq | ⟨q, hq, hEq⟩
  · exact ⟨p, List.mem_cons_self _ _, hEq⟩
  · exact ⟨q, List.mem_cons_of_mem _ hq, hEq⟩

/-- Claim C2: for an input of fewer than 3 points, create_outline_polygon
    raises the ValueError of its first guard instead of returning a polygon. -/
theorem create_outline_polygon_needs_three (hull hull_opts : HullOracle)
    (points : List Point) (h : points.length < 3) :
    create_outline_polygon hull hull_opts points =
      .error ("Need at least 3 points to create a polygon") := by
  unfold create_outline_polygon
  rw [if_pos h]

/-- Witness for C2 at a concrete two-point input. -/
theorem create_outline_polygon_needs_three_test :
    create_outline_polygon hullNone hullNone [⟨0, 0⟩, ⟨1, 1⟩] =
      .error ("Need at least 3 points to create a polygon") :=
  create_outline_polygon_needs_three hullNone hullNone _ (by decide)

/-- Claim C1 counterexample: three coincident points are an input of length
    3, yet create_outline_polygon fails at its post-deduplication guard (even
    with a succeeding hull oracle) instead of returning a closed ring. -/
theorem create_outline_polygon_three_equal_points :
    3 ≤ ([⟨0, 0⟩, ⟨0, 0⟩, ⟨0, 0⟩] : List Point).length ∧
    create_outline_polygon hullTri hullNone [⟨0, 0⟩, ⟨0, 0⟩, ⟨0, 0⟩] =
      .error ("Need at least 3 unique points to create a polygon") :=
  ⟨by decide, by decide⟩

/-- Claim C1 (amended): if at least 3 points survive deduplication and the
    hull call succeeds with at least 3 distinct valid vertex indices, then
    create_outline_polygon returns a closed ring — the first point equals the
    last — with at least 3 distinct vertices. -/
theorem create_outline_polygon_closed_ring (hull hull_opts : HullOracle)
    (points pts : List Point) (vs : List ℕ)
    (hpts : pts = remove_duplicate_points points default_tolerance)
    (h3 : 3 ≤ pts.length)
    (hh : hull pts = some vs)
    (hvnd : vs.Nodup) (hv3 : 3 ≤ vs.length)
    (hvalid : ∀ i ∈ vs, i < pts.length) :
    ∃ ring, create_outline_polygon hull hull_opts points = .ok ring ∧
      ring.head? = ring.getLast? ∧ 3 ≤ ring.toFinset.card := by
  subst hpts
  have hp3 : ¬ points.length < 3 := by
    have := dedup_length_le points default_tolerance
    omega
  have hq3 : ¬ (remove_duplicate_points points default_tolerance).length < 3 := by omega
  obtain ⟨o, rest, hor⟩ : ∃ o rest,
      vs.map (fun i => (remove_duplicate_points points default_tolerance).getD i ⟨0, 0⟩)
        = o :: rest := by
    cases hout : vs.map (fun i =>
        (remove_duplicate_points points default_tolerance).getD i ⟨0, 0⟩) with
    | nil =>
      exfalso
      have hl0 : vs.length = 0 := by
        have hc := congrArg List.length hout
        simpa using hc
      omega
    | cons o rest => exact ⟨o, rest, rfl⟩
  have hrun : create_outline_polygon hull hull_opts points = .ok ((o :: rest) ++ [o]) := by
    simp only [create_outline_polygon, if_neg hp3, if_neg hq3, hh, hor]
  refine ⟨(o :: rest) ++ [o], hrun, ?_, ?_⟩
  · rw [List.getLast?_concat]
    simp
  · have houtnd : (o :: rest).Nodup := by
      rw [← hor]
      refine List.Nodup.map_on ?_ hvnd
      intro i hi j hj hEq
      have hi' := hvalid i hi
      have hj' := hvalid j hj
      rw [List.getD_eq_getElem _ _ hi', List.getD_eq_getElem _ _ hj'] at hEq
      exact ((dedup_nodup points default_tolerance).getElem_inj_iff).mp hEq
    have hocard : ((o :: rest) ++ [o]).toFinset = (o :: rest).toFinset := by
      rw [List.toFinset_append, Finset.union_eq_left]
      simp
    have hlv : (o :: rest).length = vs.length := by
      rw [← hor]
      exact List.length_map _ _
    rw [hocard, List.toFinset_card_of_nodup houtnd]
    omega

/-- Witness for the amended C1 at a concrete triangle whose hull succeeds
    with vertex indices 0, 1, 2. -/
theorem create_outline_polygon_closed_ring_test :
    ∃ ring, create_outline_polygon hullTri hullNone [⟨0, 0⟩, ⟨10, 0⟩, ⟨0, 10⟩] = .ok ring ∧
      ring.head? = ring.getLast? ∧ 3 ≤ ring.toFinset.card :=
  create_outline_polygon_closed_ring hullTri hullNone _ _ [0, 1, 2] rfl (by decide) rfl
    (by decide) (by decide) (by decide)

/-- Claim C3: when the standard hull call fails, the retry with relaxed
    numerical options is used; when that also fails, the outline before ring
    closure is the axis-aligned bounding box of the (deduplicated) points,
    i.e. the 4 corners (min_x,min_y), (max_x,min_y), (max_x,max_y),
    (min_x,max_y). -/
theorem create_outline_polygon_fallback (hull hull_opts : HullOracle)
    (points pts : List Point)
    (hpts : pts = remove_duplicate_points points default_tolerance)
    (h3 : 3 ≤ pts.length)
    (hfail : hull pts = none) :
    (∀ vs o rest, hull_opts pts = some vs →
        vs.map (fun i => pts.getD i ⟨0, 0⟩) = o :: rest →
        create_outline_polygon hull hull_opts points = .ok ((o :: rest) ++ [o])) ∧
    (hull_opts pts = none →
      create_outline_polygon hull hull_opts points =
        .ok (create_bounding_box pts ++ [⟨minX pts, minY pts⟩]) ∧
      create_bounding_box pts =
        [⟨minX pts, minY pts⟩, ⟨maxX pts, minY pts⟩,
         ⟨maxX pts, maxY pts⟩, ⟨minX pts, maxY pts⟩] ∧
      (∀ q ∈ pts, minX pts ≤ q.x ∧ q.x ≤ maxX pts ∧ minY pts ≤ q.y ∧ q.y ≤ maxY pts) ∧
      ((∃ q ∈ pts, minX pts = q.x) ∧ (∃ q ∈ pts, maxX pts = q.x) ∧
        (∃ q ∈ pts, minY pts = q.y) ∧ (∃ q ∈ pts, maxY pts = q.y))) := by
  subst hpts
  have hp3 : ¬ points.length < 3 := by
    have := dedup_length_le points default_tolerance
    omega
  have hq3 : ¬ (remove_duplicate_points points default_tolerance).length < 3 := by omega
  constructor
  · intro vs o rest hsome hmap
    simp only [create_outline_polygon, if_neg hp3, if_neg hq3, hfail, hsome, hmap]
  · intro hnone
    obtain ⟨p, ps, hcons⟩ : ∃ p ps,
        remove_duplicate_points points default_tolerance = p :: ps := by
      cases hc : remove_duplicate_points points default_tolerance with
      | nil =>
        exfalso
        rw [hc] at hq3
        simp at hq3
      | cons p ps => exact ⟨p, ps, rfl⟩
    refine ⟨?_, rfl, ?_, ?_⟩
    · simp only [create_outline_polygon, if_neg hp3, if_neg hq3, hfail, hnone,
        create_bounding_box, List.cons_append, List.nil_append]
    · intro q hq
      rw [hcons] at hq ⊢
      exact ⟨minX_le_mem p ps q hq, maxX_le_mem p ps q hq,
        minY_le_mem p ps q hq, maxY_le_mem p ps q hq⟩
    · rw [hcons]
      exact ⟨minX_mem p ps, maxX_mem p ps, minY_mem p ps, maxY_mem p ps⟩

/-- Witness for C3: both hull attempts fail on a concrete triangle, and the
    result is the closed bounding-box ring, evaluated concretely. -/
theorem create_outline_polygon_fallback_test :
    create_outline_polygon hullNone hullNone [⟨0, 0⟩, ⟨10, 0⟩, ⟨0, 10⟩] =
      .ok (create_bounding_box
            (remove_duplicate_points [⟨0, 0⟩, ⟨10, 0⟩, ⟨0, 10⟩] default_tolerance)
          ++ [⟨minX (remove_duplicate_points [⟨0, 0⟩, ⟨10, 0⟩, ⟨0, 10⟩] default_tolerance),
              minY (remove_duplicate_points [⟨0, 0⟩, ⟨10, 0⟩, ⟨0, 10⟩] default_tolerance)⟩]) ∧
    create_bounding_box
        (remove_duplicate_points [⟨0, 0⟩, ⟨10, 0⟩, ⟨0, 10⟩] default_tolerance) =
      [⟨0, 0⟩, ⟨10, 0⟩, ⟨10, 10⟩, ⟨0, 10⟩] :=
  ⟨((create_outline_polygon_fallback hullNone hullNone _ _ rfl (by decide) rfl).2 rfl).1,
    by decide⟩

theorem convert_points_loop_eq_filterMap (tr : TransformerFn) (l : List Point) :
    convert_points_loop tr l =
      l.filterMap (fun p => (tr p).map (fun q => (q.1, q.2, 0))) := by
  induction l with
  | nil => rfl
  | cons p ps ih =>
    cases htr : tr p with
    | some q => simp [convert_points_loop, List.filterMap_cons, htr, ih]
    | none => simp [convert_points_loop, List.filterMap_cons, htr, ih]

/-- Claim C4: a point whose individual transform raises is dropped (with a
    warning) and the remaining points are still returned, while failure to
    construct the transformer itself raises an error aborting the whole
    conversion. -/
theorem convert_coordinates_error_handling
    (from_crs bad_from_crs : String → String → Option TransformerFn)
    (tr : TransformerFn) (l₁ l₂ points : List Point) (p : Point) (s t : String)
    (hsome : from_crs s t = some tr) (hdrop : tr p = none)
    (hbad : bad_from_crs s t = none) :
    convert_coordinates from_crs (l₁ ++ p :: l₂) s t =
      convert_coordinates from_crs (l₁ ++ l₂) s t ∧
    convert_coordinates from_crs (l₁ ++ l₂) s t =
      .ok ((l₁ ++ l₂).filterMap (fun q => (tr q).map (fun u => (u.1, u.2, 0)))) ∧
    convert_coordinates bad_from_crs points s t =
      .error (("Could not initialize coordinate transformer from ") ++ s
        ++ (" to ") ++ t) := by
  refine ⟨?_, ?_, ?_⟩
  · simp only [convert_coordinates, hsome]
    rw [convert_points_loop_eq_filterMap, convert_points_loop_eq_filterMap]
    simp [List.filterMap_append, List.filterMap_cons, hdrop]
  · simp only [convert_coordinates, hsome, convert_points_loop_eq_filterMap]
  · simp only [convert_coordinates, hbad]

/-- Witness for C4: a concrete point with a raising transform is dropped
    while its neighbours survive, and a failing construction aborts. -/
theorem convert_coordinates_error_handling_test :
    convert_coordinates sample_from_crs ([⟨1, 2⟩] ++ ⟨0, 5⟩ :: [⟨3, 4⟩])
        ("EPSG:31468") ("EPSG:4326") =
      convert_coordinates sample_from_crs ([⟨1, 2⟩] ++ [⟨3, 4⟩])
        ("EPSG:31468") ("EPSG:4326") ∧
    convert_coordinates sample_from_crs ([⟨1, 2⟩] ++ [⟨3, 4⟩])
        ("EPSG:31468") ("EPSG:4326") =
      .ok ((([⟨1, 2⟩] ++ [⟨3, 4⟩] : List Point)).filterMap
        (fun q => ((fun (p : Point) => if p.x = 0 then none else some (p.x, p.y)) q).map
          (fun (u : ℚ × ℚ) => (u.1, u.2, 0)))) ∧
    convert_coordinates from_crs_fail [⟨1, 2⟩] ("EPSG:31468") ("EPSG:4326") =
      .error (("Could not initialize coordinate transformer from ")
        ++ ("EPSG:31468") ++ (" to ") ++ ("EPSG:4326")) :=
  convert_coordinates_error_handling sample_from_crs from_crs_fail
    (fun p => if p.x = 0 then none else some (p.x, p.y))
    [⟨1, 2⟩] [⟨3, 4⟩] [⟨1, 2⟩] ⟨0, 5⟩ ("EPSG:31468") ("EPSG:4326")
    rfl (by decide) rfl

/-- Claim C10: create_kml_file assigns the same outer-boundary geometry for
    both values of is_latlon — the coordinates written are the points
    themselves in either case — and the flag leaves the name, style and
    output file unchanged; only the description text can differ. -/
theorem create_kml_file_flag_eq (points : List Point3)
    (output_filename : String) (n : ℕ) :
    (create_kml_file points output_filename n true).outerboundaryis =
      (create_kml_file points output_filename n false).outerboundaryis ∧
    (create_kml_file points output_filename n true).outerboundaryis =
      points.map (fun p => (p.1, p.2.1, p.2.2)) ∧
    (create_kml_file points output_filename n true).name =
      (create_kml_file points output_filename n false).name ∧
    (create_kml_file points output_filename n true).polystyle_color =
      (create_kml_file points output_filename n false).polystyle_color ∧
    (create_kml_file points output_filename n true).linestyle_color =
      (create_kml_file points output_filename n false).linestyle_color ∧
    (create_kml_file points output_filename n true).linestyle_width =
      (create_kml_file points output_filename n false).linestyle_width ∧
    (create_kml_file points output_filename n true).saved_to =
      (create_kml_file points output_filename n false).saved_to :=
  ⟨rfl, rfl, rfl, rfl, rfl, rfl, rfl⟩

/-- Claim C7: read_coordinates returns exactly the (x, y) pairs of the
    well-formed lines in file order — blank lines, comment lines, and lines
    that do not parse as two leading floats are skipped — as stated by the
    spec-level per-line description. -/
theorem read_coordinates_spec (parse_float : List Char → Option ℚ)
    (lines : List (List Char)) :
    read_coordinates parse_float lines =
      lines.filterMap (spec_well_formed_pair parse_float) := by
  induction lines with
  | nil => rfl
  | cons line rest ih =>
    rw [List.filterMap_cons]
    simp only [read_coordinates]
    by_cases h1 : strip line = []
    · rw [if_neg (by simp [h1])]
      have hs : spec_well_formed_pair parse_float line = none := by
        simp [spec_well_formed_pair, h1]
      rw [hs, ih]
    · by_cases h2 : (strip line).head? = some '#'
      · rw [if_neg (by simp [h2])]
        have hs : spec_well_formed_pair parse_float line = none := by
          simp [spec_well_formed_pair, h1, h2]
        rw [hs, ih]
      · rw [if_pos ⟨h1, h2⟩]
        cases hp : pySplit (strip line) with
        | nil =>
          rw [if_neg (by simp)]
          have hs : spec_well_formed_pair parse_float line = none := by
            simp [spec_well_formed_pair, h1, h2, hp]
          rw [hs, ih]
        | cons t1 ts =>
          cases ts with
          | nil =>
            rw [if_neg (by simp)]
            have hs : spec_well_formed_pair parse_float line = none := by
              simp [spec_well_formed_pair, h1, h2, hp]
            rw [hs, ih]
          | cons t2 ts2 =>
            rw [if_pos (by simp)]
            have hs : spec_well_formed_pair parse_float line =
                (match parse_float t1, parse_float t2 with
                 | some xv, some yv => some ⟨xv, yv⟩
                 | _, _ => none) := by
              simp [spec_well_formed_pair, h1, h2, hp]
            simp only [List.getD_cons_zero, List.getD_cons_succ]
            cases hx : parse_float t1 with
            | none => simp [hs, hx, ih]
            | some xv =>
              cases hy : parse_float t2 with
              | none => simp [hs, hx, hy, ih]
              | some yv => simp [hs, hx, hy, ih]

theorem find_viable_arrays_loop_append (load : String → Option (List ℚ))
    (a b : List String) :
    find_viable_arrays_loop load (a ++ b) =
      find_viable_arrays_loop load a ++ find_viable_arrays_loop load b := by
  induction a with
  | nil => rfl
  | cons f fs ih =>
    cases hl : load f with
    | none =>
      simp only [List.cons_append, find_viable_arrays_loop, hl, List.append_eq]
      exact ih
    | some arr =>
      by_cases hc : 1 < arr.toFinset.card
      · simp only [List.cons_append, find_viable_arrays_loop, hl, if_pos hc,
          List.append_eq, ih]
      · simp only [List.cons_append, find_viable_arrays_loop, hl, if_neg hc,
          List.append_eq, ih]

theorem find_viable_arrays_loop_mem (load : String → Option (List ℚ))
    (files : List String) (g : String) (arr : List ℚ)
    (hload : load g = some arr) (hcard : 1 < arr.toFinset.card) :
    g ∈ files → g ∈ find_viable_arrays_loop load files := by
  induction files with
  | nil => intro hg; cases hg
  | cons f fs ih =>
    intro hg
    rcases List.mem_cons.mp hg with rfl | hg'
    · simp only [find_viable_arrays_loop, hload, if_pos hcard]
      exact List.mem_cons_self _ _
    · cases hl : load f with
      | none =>
        simp only [find_viable_arrays_loop, hl]
        exact ih hg'
      | some a2 =>
        by_cases hc : 1 < a2.toFinset.card
        · simp only [find_viable_arrays_loop, hl, if_pos hc]
          exact List.mem_cons_of_mem _ (ih hg')
        · simp only [find_viable_arrays_loop, hl, if_neg hc]
          exact ih hg'

/-- Claim C8: a file whose load raises is reported and skipped — the scan of
    the remaining files is unchanged — and every successfully loaded .npy
    array with more than one distinct value is still classified and
    returned. -/
theorem find_viable_arrays_scan (load : String → Option (List ℚ))
    (l₁ l₂ : List String) (f : String) (hf : load f = none) :
    find_viable_arrays load (l₁ ++ f :: l₂) = find_viable_arrays load (l₁ ++ l₂) ∧
    ∀ g arr, g ∈ l₁ ++ l₂ → ends_with_npy g = true → load g = some arr →
      1 < arr.toFinset.card → g ∈ find_viable_arrays load (l₁ ++ f :: l₂) := by
  have heq : find_viable_arrays load (l₁ ++ f :: l₂) = find_viable_arrays load (l₁ ++ l₂) := by
    unfold find_viable_arrays
    rw [List.filter_append, List.filter_append, List.filter_cons]
    by_cases he : ends_with_npy f
    · rw [if_pos he, find_viable_arrays_loop_append, find_viable_arrays_loop_append]
      simp only [find_viable_arrays_loop, hf]
    · rw [if_neg he]
  refine ⟨heq, ?_⟩
  intro g arr hg he hl hc
  rw [heq]
  unfold find_viable_arrays
  refine find_viable_arrays_loop_mem load _ g arr hl hc ?_
  rw [List.mem_filter]
  exact ⟨hg, he⟩

/-- Witness for C8: a failing bad.npy in the middle of a concrete folder
    listing does not stop the scan, and c.npy is still classified. -/
theorem find_viable_arrays_scan_test :
    find_viable_arrays sample_load (["a.npy"] ++ ("bad.npy") :: ["c.npy", "d.txt"]) =
      find_viable_arrays sample_load (["a.npy"] ++ ["c.npy", "d.txt"]) ∧
    ("c.npy") ∈ find_viable_arrays sample_load
      (["a.npy"] ++ ("bad.npy") :: ["c.npy", "d.txt"]) := by
  have h := find_viable_arrays_scan sample_load ["a.npy"] ["c.npy", "d.txt"]
    ("bad.npy") rfl
  exact ⟨h.1, h.2 ("c.npy") [0, 1] (by decide) (by decide) (by decide) (by decide)⟩

theorem epsg_327_ne_326 (s : String) : ("EPSG:327") ++ s ≠ ("EPSG:326") ++ s := by
  intro h
  have hd := congrArg String.data h
  rw [String.data_append, String.data_append] at hd
  have hpre : ("EPSG:327").data = ("EPSG:326").data :=
    (List.append_inj hd (by decide)).1
  exact absurd hpre (by decide)

/-- Claim C9: get_crs_from_args returns the southern-hemisphere code
    EPSG:327<zone> exactly when the hemisphere argument lower-cases to "s";
    the accepted argument value "south" therefore yields the
    northern-hemisphere code EPSG:326<zone>. -/
theorem get_crs_from_args_south (z : ℤ) (hemi : String) (hz : 0 < z) :
    (get_crs_from_args false (some z) hemi = some (("EPSG:327") ++ zone_fmt z) ↔
      str_lower hemi = ("s")) ∧
    get_crs_from_args false (some z) ("south") = some (("EPSG:326") ++ zone_fmt z) := by
  have hz0 : z ≠ 0 := by omega
  constructor
  · constructor
    · intro h
      by_contra hs
      rw [get_crs_from_args] at h
      rw [if_neg (by simp)] at h
      rw [if_pos hz0, if_neg hs] at h
      exact epsg_327_ne_326 (zone_fmt z) ((Option.some.injEq _ _).mp h).symm
    · intro hs
      rw [get_crs_from_args]
      rw [if_neg (by simp), if_pos hz0, if_pos hs]
  · have hsouth : ¬ str_lower ("south") = ("s") := by decide
    rw [get_crs_from_args]
    rw [if_neg (by simp), if_pos hz0, if_neg hsouth]

/-- Witness for C9 at zone 44 with the hemisphere spellings South and
    south. -/
theorem get_crs_from_args_south_test :
    (get_crs_from_args false (some 44) ("South") = some (("EPSG:327") ++ zone_fmt 44) ↔
      str_lower ("South") = ("s")) ∧
    get_crs_from_args false (some 44) ("south") = some (("EPSG:326") ++ zone_fmt 44) :=
  get_crs_from_args_south 44 ("South") (by decide)
